import Mathlib

/-!
Shallow embedding of the thaink2-streamlit forecasting dashboard
(src/utils.py and src/app.py): the backtest/forecast reconciliation and
reshaping pipeline, with theorems checking the specification's claims.

Machine-level conventions of the embedding:
* a pandas DataFrame is a list of rows (a structure per row shape);
* a Python dict is an association list built by successive assignment,
  where assigning to an existing key overwrites its value in place
  (keeping the key's insertion position) and a new key is appended;
* the remote Forecast Client (`get_api_forecasts` over the th2analytics
  API) is an abstract function parameter: the code under verification
  never inspects its internals.
-/

/-- A historical observation row of the `sales_economics` table
(columns `variable`, `date`, `value`, `value01`). Dates are modelled as
integers (timestamps), numeric columns as rationals. -/
structure Observation where
  var : String
  date : Int
  value : Rat
  value01 : Rat
  deriving DecidableEq

/-- A normalized forecast row as produced by `get_api_forecasts`
(src/utils.py lines 40-67): columns `date`, the target value column,
and `.model_id`. -/
structure ForecastRow where
  date : Int
  value : Rat
  model_id : Nat
  deriving DecidableEq

/-- The Forecast Client interface (src/utils.py `get_api_forecasts`):
actuals, fcast_horizon, target_var, models_list to a table of forecast
rows. The remote service is abstract, so the client is a parameter. -/
def ForecastClient : Type :=
  List Observation → Nat → String → List String → List ForecastRow

/-- src/utils.py lines 69-85, `combine_backtest_forecast`: call the
Forecast Client on the backtest slice, then on the full filtered data,
and return `pd.concat([backtest_df, forecast_df])`. -/
def combine_backtest_forecast (client : ForecastClient)
    (filtered_data backtest_data : List Observation)
    (fcast_horizon : Nat) (target_var : String) (models : List String) :
    List ForecastRow :=
  let backtest_df := client backtest_data fcast_horizon target_var models
  let forecast_df := client filtered_data fcast_horizon target_var models
  backtest_df ++ forecast_df

/-- src/utils.py lines 87-97, `generate_model_dict`: enumerate the
selected models, mapping identifier `index + 1` to each model name. -/
def generate_model_dict (selected_models : List String) :
    List (Nat × String) :=
  selected_models.enum.map (fun p => (p.1 + 1, p.2))

/-- Python dict assignment `d[k] = v` on an association list: overwrite
the first entry with key `k` in place (a Python dict has at most one),
else append the new entry. -/
def dictInsert {κ ν : Type} [BEq κ] : List (κ × ν) → κ → ν → List (κ × ν)
  | [], k, v => [(k, v)]
  | p :: d, k, v =>
      if p.1 == k then (k, v) :: d else p :: dictInsert d k v

/-- Python dict subscript `d[k]`: the value of the first entry with
key `k`, if any. -/
def lookupD {κ ν : Type} [BEq κ] (d : List (κ × ν)) (k : κ) : Option ν :=
  (d.find? (fun p => p.1 == k)).map Prod.snd

/-- src/utils.py lines 99-113, `split_forecasts_by_model`: the dict
comprehension mapping, for each `model_id` key of `model_dict`, the
model's name to the sub-dataframe `forecast_df[forecast_df['.model_id'] == model_id]`.
`mid` reads the `.model_id` column of a row (the Python code is
duck-typed over the row shape). -/
def split_forecasts_by_model {ρ : Type} (mid : ρ → Nat)
    (forecast_df : List ρ) (model_dict : List (Nat × String)) :
    List (String × List ρ) :=
  model_dict.foldl
    (fun acc p => dictInsert acc p.2 (forecast_df.filter (fun r => mid r == p.1)))
    []

/-- src/app.py line 69: filter the loaded table to the selected
variable. -/
def filtered_data (data : List Observation) (variable_name : String) :
    List Observation :=
  data.filter (fun o => o.var == variable_name)

/-- src/app.py line 72: `backtest_data = filtered_data.iloc[:-fcast_horizon]`.
Python slicing semantics: all but the last `fcast_horizon` rows; empty
when the horizon is at least the length (and `[:-0]` is also empty). -/
def backtest_data (filtered : List Observation) (fcast_horizon : Nat) :
    List Observation :=
  if fcast_horizon = 0 then [] else filtered.take (filtered.length - fcast_horizon)

/-- Pandas `Series.min` over a column. The app only takes the minimum of
a non-empty history column; 0 stands in for pandas' NaN on the (never
reached) empty column. -/
def listMin : List Rat → Rat
  | [] => 0
  | x :: xs => xs.foldl min x

/-- Pandas `Series.max` over a column, as in `listMin`. -/
def listMax : List Rat → Rat
  | [] => 0
  | x :: xs => xs.foldl max x

/-- A combined normalized row after src/app.py lines 86-89 attach the
rescaled `value` column next to `value01`. -/
structure RescaledRow where
  date : Int
  value01 : Rat
  value : Rat
  model_id : Nat
  deriving DecidableEq

/-- src/app.py lines 86-89:
`forecast_normalized_df['value'] = forecast_normalized_df['value01'] * (max_value - min_value) + min_value`,
applied row-wise. -/
def rescale_normalized (df : List ForecastRow) (min_value max_value : Rat) :
    List RescaledRow :=
  df.map (fun r => ⟨r.date, r.value, r.value * (max_value - min_value) + min_value, r.model_id⟩)

/-- Python negative positional indexing `s.iloc[-k]` for a literal
`k ≥ 1`: the `k`-th element from the end; out of bounds raises, modelled
as `none`. -/
def ilocNeg {α : Type} (l : List α) (k : Nat) : Option α :=
  if 0 < k ∧ k ≤ l.length then l.get? (l.length - k) else none

/-- src/app.py line 94:
`zoom_range = [filtered_data['date'].iloc[-20], forecast_original_df['date'].iloc[-1]]`. -/
def zoom_range (filtered : List Observation)
    (forecast_original_df : List ForecastRow) : Option Int × Option Int :=
  (ilocNeg (filtered.map Observation.date) 20,
   ilocNeg (forecast_original_df.map ForecastRow.date) 1)

/-- The data computed by the Generate Forecast handler before chart
rendering (src/app.py lines 67-94). -/
structure PipelineOutput where
  forecast_original_df : List ForecastRow
  forecast_normalized_df : List RescaledRow
  forecasts_original : List (String × List ForecastRow)
  forecasts_normalized : List (String × List RescaledRow)
  zoom : Option Int × Option Int
  deriving DecidableEq

/-- src/app.py lines 67-94: the body of the Generate Forecast action for
a non-empty model selection. -/
def run_pipeline (client : ForecastClient) (data : List Observation)
    (variable_name : String) (fcast_horizon : Nat)
    (selected_models : List String) : PipelineOutput :=
  let filtered := filtered_data data variable_name
  let back := backtest_data filtered fcast_horizon
  let model_dict := generate_model_dict selected_models
  let fo := combine_backtest_forecast client filtered back fcast_horizon "value" selected_models
  let fnRaw := combine_backtest_forecast client filtered back fcast_horizon "value01" selected_models
  let min_value := listMin (filtered.map Observation.value)
  let max_value := listMax (filtered.map Observation.value)
  let fn := rescale_normalized fnRaw min_value max_value
  { forecast_original_df := fo
    forecast_normalized_df := fn
    forecasts_original := split_forecasts_by_model ForecastRow.model_id fo model_dict
    forecasts_normalized := split_forecasts_by_model RescaledRow.model_id fn model_dict
    zoom := zoom_range filtered fo }

/-- src/app.py lines 63-66: the Generate Forecast button handler. An
empty model selection reports the error message and never reaches the
pipeline (so no remote call is made); otherwise the pipeline runs. -/
def generate_forecast_handler (client : ForecastClient)
    (data : List Observation) (variable_name : String)
    (fcast_horizon : Nat) (selected_models : List String) :
    Except String PipelineOutput :=
  if selected_models.isEmpty then
    Except.error "Please select at least one forecasting model before proceeding."
  else
    Except.ok (run_pipeline client data variable_name fcast_horizon selected_models)

/-- A well-behaved Forecast Client stub used to instantiate theorems on
concrete inputs: for each model `i` of `1..M` it returns `h` rows tagged
with model identifier `i`, ignoring the actuals. -/
def clientStub : ForecastClient :=
  fun _ h _ models =>
    ((List.range' 1 models.length).map
      (fun i => (List.range h).map (fun t => ⟨Int.ofNat t, 0, i⟩))).flatten

/-- A three-point history for the "pop" variable, used to instantiate
theorems at concrete inputs. -/
def hist3 : List Observation :=
  [⟨"pop", 0, 1, 0⟩, ⟨"pop", 1, 2, 1⟩, ⟨"pop", 2, 3, 1⟩]

/-- A twenty-point history for the "pop" variable, used to instantiate
theorems at concrete inputs. -/
def hist20 : List Observation :=
  (List.range 20).map (fun t => ⟨"pop", Int.ofNat t, t, 0⟩)

/-! ### Association-list lemmas for the Python-dict embedding -/

theorem lookupD_nil {κ ν : Type} [BEq κ] (k : κ) :
    lookupD ([] : List (κ × ν)) k = none := rfl

theorem lookupD_cons {κ ν : Type} [BEq κ] (p : κ × ν) (d : List (κ × ν)) (k : κ) :
    lookupD (p :: d) k = if p.1 == k then some p.2 else lookupD d k := by
  cases h : p.1 == k <;> simp [lookupD, List.find?_cons, h]

theorem lookupD_dictInsert {κ ν : Type} [BEq κ] [LawfulBEq κ]
    (d : List (κ × ν)) (k0 k : κ) (v : ν) :
    lookupD (dictInsert d k0 v) k = if k0 == k then some v else lookupD d k := by
  induction d with
  | nil => by_cases hk : k0 == k <;> simp [dictInsert, lookupD_cons, lookupD_nil, hk]
  | cons p d ih =>
    by_cases h : p.1 == k0
    · have hp : p.1 = k0 := eq_of_beq h
      by_cases hk : k0 == k <;> simp [dictInsert, h, lookupD_cons, hp, hk]
    · have hp : p.1 ≠ k0 := by simpa using h
      by_cases hk : k0 == k
      · have hk' : k0 = k := eq_of_beq hk
        have hpk : (p.1 == k) = false := beq_eq_false_iff_ne.mpr (hk' ▸ hp)
        simp [dictInsert, h, lookupD_cons, hpk, ih, hk]
      · simp [dictInsert, h, lookupD_cons, ih, hk]

theorem dictInsert_keys {κ ν : Type} [BEq κ] [LawfulBEq κ]
    (d : List (κ × ν)) (k : κ) (v : ν) :
    (dictInsert d k v).map Prod.fst =
      if k ∈ d.map Prod.fst then d.map Prod.fst else d.map Prod.fst ++ [k] := by
  induction d with
  | nil => simp [dictInsert]
  | cons p d ih =>
    by_cases h : p.1 == k
    · have hp : p.1 = k := eq_of_beq h
      simp [dictInsert, h, hp]
    · have hp : p.1 ≠ k := by simpa using h
      have hkp : k ≠ p.1 := fun e => hp e.symm
      by_cases hm : k ∈ d.map Prod.fst <;>
        simp [dictInsert, h, ih, hkp, hm]

theorem dictInsert_of_not_mem {κ ν : Type} [BEq κ] [LawfulBEq κ]
    (d : List (κ × ν)) (k : κ) (v : ν) (h : k ∉ d.map Prod.fst) :
    dictInsert d k v = d ++ [(k, v)] := by
  induction d with
  | nil => rfl
  | cons p d ih =>
    simp only [List.map_cons, List.mem_cons, not_or] at h
    have h1 : (p.1 == k) = false := beq_eq_false_iff_ne.mpr (fun e => h.1 e.symm)
    simp [dictInsert, h1, ih h.2]

theorem mem_dictInsert_struct {κ ν : Type} [BEq κ] [LawfulBEq κ]
    (d : List (κ × ν)) (k : κ) (v : ν) (hnd : (d.map Prod.fst).Nodup)
    (q : κ × ν) (hq : q ∈ dictInsert d k v) :
    q = (k, v) ∨ (q ∈ d ∧ q.1 ≠ k) := by
  induction d with
  | nil => simp [dictInsert] at hq; exact Or.inl hq
  | cons p d ih =>
    simp only [List.map_cons, List.nodup_cons] at hnd
    by_cases h : p.1 == k
    · have hp : p.1 = k := eq_of_beq h
      simp only [dictInsert, h, if_pos] at hq
      rcases List.mem_cons.mp hq with rfl | hq'
      · exact Or.inl rfl
      · refine Or.inr ⟨List.mem_cons_of_mem p hq', ?_⟩
        intro hqk
        exact (hp ▸ hnd.1) (hqk ▸ List.mem_map_of_mem Prod.fst hq')
    · simp only [dictInsert, h] at hq
      rcases List.mem_cons.mp hq with rfl | hq'
      · exact Or.inr ⟨List.mem_cons_self q d, by simpa using h⟩
      · rcases ih hnd.2 hq' with h1 | ⟨h2, h3⟩
        · exact Or.inl h1
        · exact Or.inr ⟨List.mem_cons_of_mem p h2, h3⟩

/-! ### Characterization of the dict-comprehension fold -/

theorem foldl_dictInsert_keysNodup {κ ν ε : Type} [BEq κ] [LawfulBEq κ]
    (key : ε → κ) (val : ε → ν) :
    ∀ (es : List ε) (acc : List (κ × ν)), (acc.map Prod.fst).Nodup →
      ((es.foldl (fun a e => dictInsert a (key e) (val e)) acc).map Prod.fst).Nodup := by
  intro es
  induction es with
  | nil => intro acc h; simpa using h
  | cons e es ih =>
    intro acc h
    simp only [List.foldl_cons]
    apply ih
    rw [dictInsert_keys]
    by_cases hm : key e ∈ acc.map Prod.fst
    · simpa [hm] using h
    · simp [hm, List.nodup_append, h, List.disjoint_singleton]

theorem foldl_dictInsert_keyMem {κ ν ε : Type} [BEq κ] [LawfulBEq κ]
    (key : ε → κ) (val : ε → ν) :
    ∀ (es : List ε) (acc : List (κ × ν)) (k : κ),
      (k ∈ (es.foldl (fun a e => dictInsert a (key e) (val e)) acc).map Prod.fst ↔
        k ∈ acc.map Prod.fst ∨ k ∈ es.map key) := by
  intro es
  induction es with
  | nil => intro acc k; simp
  | cons e es ih =>
    intro acc k
    simp only [List.foldl_cons, ih, List.map_cons, List.mem_cons]
    rw [dictInsert_keys]
    by_cases hm : key e ∈ acc.map Prod.fst
    · simp only [hm, if_pos]
      constructor
      · rintro (h1 | h2)
        · exact Or.inl h1
        · exact Or.inr (Or.inr h2)
      · rintro (h1 | h2 | h3)
        · exact Or.inl h1
        · exact Or.inl (by rw [h2]; exact hm)
        · exact Or.inr h3
    · simp [hm, List.mem_append, or_assoc]

theorem foldl_dictInsert_lookup {κ ν ε : Type} [BEq κ] [LawfulBEq κ]
    (key : ε → κ) (val : ε → ν) :
    ∀ (es : List ε) (acc : List (κ × ν)) (k : κ),
      lookupD (es.foldl (fun a e => dictInsert a (key e) (val e)) acc) k =
        match es.reverse.find? (fun e => key e == k) with
        | some e => some (val e)
        | none => lookupD acc k := by
  intro es
  induction es with
  | nil => intro acc k; simp
  | cons e es ih =>
    intro acc k
    simp only [List.foldl_cons, ih, List.reverse_cons, List.find?_append]
    cases hfind : es.reverse.find? (fun e => key e == k) with
    | some f => simp [Option.or_some]
    | none =>
      simp only [Option.none_or]
      cases hke : key e == k with
      | true => simp [List.find?_cons, hke, lookupD_dictInsert]
      | false => simp [List.find?_cons, hke, lookupD_dictInsert]

theorem foldl_dictInsert_mem_struct {κ ν ε : Type} [BEq κ] [LawfulBEq κ]
    (key : ε → κ) (val : ε → ν) :
    ∀ (es : List ε) (acc : List (κ × ν)), (acc.map Prod.fst).Nodup →
      ∀ q ∈ es.foldl (fun a e => dictInsert a (key e) (val e)) acc,
        (q ∈ acc ∧ ∀ e ∈ es, key e ≠ q.1) ∨
        (∃ l1 e l2, es = l1 ++ e :: l2 ∧ (∀ x ∈ l2, key x ≠ key e) ∧
          q = (key e, val e)) := by
  intro es
  induction es with
  | nil => intro acc _ q hq; exact Or.inl ⟨hq, by simp⟩
  | cons e es ih =>
    intro acc hnd q hq
    simp only [List.foldl_cons] at hq
    have hnd' : ((dictInsert acc (key e) (val e)).map Prod.fst).Nodup := by
      rw [dictInsert_keys]
      by_cases hm : key e ∈ acc.map Prod.fst
      · simpa [hm] using hnd
      · simp [hm, List.nodup_append, hnd, List.disjoint_singleton]
    rcases ih (dictInsert acc (key e) (val e)) hnd' q hq with
      ⟨hmem, hkeys⟩ | ⟨l1, f, l2, heq, hlast, hq'⟩
    · rcases mem_dictInsert_struct acc (key e) (val e) hnd q hmem with h1 | ⟨h2, h3⟩
      · refine Or.inr ⟨[], e, es, rfl, ?_, h1⟩
        intro x hx
        have hx' := hkeys x hx
        rw [h1] at hx'
        exact hx'
      · refine Or.inl ⟨h2, ?_⟩
        intro x hx
        rcases List.mem_cons.mp hx with rfl | hx'
        · exact fun he => h3 he.symm
        · exact hkeys x hx'
    · exact Or.inr ⟨e :: l1, f, l2, by rw [heq]; rfl, hlast, hq'⟩

theorem foldl_dictInsert_eq_append {κ ν ε : Type} [BEq κ] [LawfulBEq κ]
    (key : ε → κ) (val : ε → ν) :
    ∀ (es : List ε) (acc : List (κ × ν)),
      (es.map key).Nodup → (∀ e ∈ es, key e ∉ acc.map Prod.fst) →
      es.foldl (fun a e => dictInsert a (key e) (val e)) acc =
        acc ++ es.map (fun e => (key e, val e)) := by
  intro es
  induction es with
  | nil => intro acc _ _; simp
  | cons e es ih =>
    intro acc hnd hdisj
    simp only [List.map_cons, List.nodup_cons] at hnd
    simp only [List.foldl_cons]
    rw [dictInsert_of_not_mem _ _ _ (hdisj e (List.mem_cons_self e es))]
    rw [ih (acc ++ [(key e, val e)]) hnd.2 ?_]
    · simp
    · intro x hx hmem
      simp only [List.map_append, List.mem_append, List.map_cons, List.map_nil,
        List.mem_singleton] at hmem
      rcases hmem with h1 | h2
      · exact hdisj x (List.mem_cons_of_mem e hx) h1
      · exact hnd.1 (h2 ▸ List.mem_map_of_mem key hx)

/-! ### Specialization to `split_forecasts_by_model` -/

theorem split_keysNodup {ρ : Type} (mid : ρ → Nat) (df : List ρ)
    (d : List (Nat × String)) :
    ((split_forecasts_by_model mid df d).map Prod.fst).Nodup :=
  foldl_dictInsert_keysNodup Prod.snd
    (fun p => df.filter (fun r => mid r == p.1)) d [] (by simp)

theorem split_keyMem {ρ : Type} (mid : ρ → Nat) (df : List ρ)
    (d : List (Nat × String)) (k : String) :
    k ∈ (split_forecasts_by_model mid df d).map Prod.fst ↔ k ∈ d.map Prod.snd := by
  have h := foldl_dictInsert_keyMem Prod.snd
    (fun p => df.filter (fun r => mid r == p.1)) d [] k
  simpa [split_forecasts_by_model] using h

theorem split_lookup {ρ : Type} (mid : ρ → Nat) (df : List ρ)
    (d : List (Nat × String)) (n : String) :
    lookupD (split_forecasts_by_model mid df d) n =
      (d.reverse.find? (fun p => p.2 == n)).map
        (fun p => df.filter (fun r => mid r == p.1)) := by
  have h := foldl_dictInsert_lookup Prod.snd
    (fun p => df.filter (fun r => mid r == p.1)) d [] n
  cases hf : d.reverse.find? (fun p => p.2 == n) with
  | some p => rw [hf] at h; simpa [split_forecasts_by_model] using h
  | none => rw [hf] at h; simpa [split_forecasts_by_model] using h

theorem split_mem_struct {ρ : Type} (mid : ρ → Nat) (df : List ρ)
    (d : List (Nat × String)) (q : String × List ρ)
    (hq : q ∈ split_forecasts_by_model mid df d) :
    ∃ l1 p l2, d = l1 ++ p :: l2 ∧ (∀ x ∈ l2, x.2 ≠ p.2) ∧
      q = (p.2, df.filter (fun r => mid r == p.1)) := by
  have h := foldl_dictInsert_mem_struct Prod.snd
    (fun p => df.filter (fun r => mid r == p.1)) d [] (by simp) q hq
  rcases h with ⟨hmem, _⟩ | hstruct
  · simp at hmem
  · exact hstruct

theorem split_eq_map_of_nodup {ρ : Type} (mid : ρ → Nat) (df : List ρ)
    (d : List (Nat × String)) (hnd : (d.map Prod.snd).Nodup) :
    split_forecasts_by_model mid df d =
      d.map (fun p => (p.2, df.filter (fun r => mid r == p.1))) := by
  have h := foldl_dictInsert_eq_append Prod.snd
    (fun p => df.filter (fun r => mid r == p.1)) d [] hnd (by simp)
  simpa using h

theorem lookupD_map_of_nodup {κ ν ε : Type} [BEq κ] [LawfulBEq κ]
    (key : ε → κ) (val : ε → ν) :
    ∀ (es : List ε) (e : ε), (es.map key).Nodup → e ∈ es →
      lookupD (es.map (fun x => (key x, val x))) (key e) = some (val e) := by
  intro es
  induction es with
  | nil => intro e _ he; simp at he
  | cons x es ih =>
    intro e hnd he
    simp only [List.map_cons, List.nodup_cons] at hnd
    rcases List.mem_cons.mp he with rfl | he'
    · simp [lookupD_cons]
    · have hxk : (key x == key e) = false := by
        refine beq_eq_false_iff_ne.mpr ?_
        intro hcontra
        exact hnd.1 (hcontra ▸ List.mem_map_of_mem key he')
      simp [lookupD_cons, hxk, ih e hnd.2 he']

/-! ### Facts about `generate_model_dict` -/

theorem gm_length (sel : List String) :
    (generate_model_dict sel).length = sel.length := by
  simp [generate_model_dict]

theorem gm_fst (sel : List String) :
    (generate_model_dict sel).map Prod.fst = List.range' 1 sel.length := by
  apply List.ext_getElem
  · simp [generate_model_dict]
  · intro i h1 h2
    simp [generate_model_dict, List.getElem_range']
    omega

theorem gm_snd (sel : List String) :
    (generate_model_dict sel).map Prod.snd = sel := by
  apply List.ext_getElem
  · simp [generate_model_dict]
  · intro i h1 h2
    simp [generate_model_dict]

theorem gm_get (sel : List String) (i : Nat) (hi : i < sel.length)
    (h2 : i < (generate_model_dict sel).length) :
    (generate_model_dict sel).get ⟨i, h2⟩ = (i + 1, sel.get ⟨i, hi⟩) := by
  simp [List.get_eq_getElem, generate_model_dict]

theorem gm_mem (sel : List String) (p : Nat × String)
    (hp : p ∈ generate_model_dict sel) :
    ∃ k, ∃ hk : k < sel.length, p = (k + 1, sel.get ⟨k, hk⟩) := by
  rcases List.mem_iff_get.mp hp with ⟨⟨k, hk⟩, hget⟩
  have hk' : k < sel.length := by
    have := hk
    rw [gm_length] at this
    exact this
  exact ⟨k, hk', by rw [← hget, gm_get sel k hk' hk]⟩

/-! ### Counting helpers -/

theorem sum_map_ite_not_mem {c : Nat} :
    ∀ (ids : List Nat) (x : Nat), x ∉ ids →
      (ids.map (fun i => if x = i then c else 0)).sum = 0 := by
  intro ids
  induction ids with
  | nil => simp
  | cons i ids ih =>
    intro x hx
    simp only [List.mem_cons, not_or] at hx
    simp [hx.1, ih x hx.2]

theorem sum_map_ite_mem {c : Nat} :
    ∀ (ids : List Nat) (x : Nat), ids.Nodup → x ∈ ids →
      (ids.map (fun i => if x = i then c else 0)).sum = c := by
  intro ids
  induction ids with
  | nil => intro x _ h; simp at h
  | cons i ids ih =>
    intro x hnd hx
    simp only [List.nodup_cons] at hnd
    rcases List.mem_cons.mp hx with rfl | hx'
    · simp [sum_map_ite_not_mem ids x hnd.1]
    · have hne : x ≠ i := fun e => hnd.1 (e ▸ hx')
      simp [hne, ih x hnd.2 hx']

theorem sum_map_add_nat {α : Type} (l : List α) (f g : α → Nat) :
    (l.map (fun a => f a + g a)).sum = (l.map f).sum + (l.map g).sum := by
  induction l with
  | nil => simp
  | cons a l ih => simp [ih]; omega

theorem length_filter_cover {α : Type} (f : α → Nat) :
    ∀ (l : List α) (ids : List Nat), ids.Nodup → (∀ a ∈ l, f a ∈ ids) →
      (ids.map (fun i => (l.filter (fun a => f a == i)).length)).sum = l.length := by
  intro l
  induction l with
  | nil => intro ids _ _; simp
  | cons a l ih =>
    intro ids hnd hcov
    have hstep : ids.map (fun i => ((a :: l).filter (fun x => f x == i)).length) =
        ids.map (fun i => (if f a = i then 1 else 0) + (l.filter (fun x => f x == i)).length) := by
      apply List.map_congr_left
      intro i _
      by_cases h : f a = i
      · simp [List.filter_cons, h]
        omega
      · simp [List.filter_cons, h]
    rw [hstep, sum_map_add_nat,
      sum_map_ite_mem ids (f a) hnd (hcov a (List.mem_cons_self a l)),
      ih ids hnd (fun x hx => hcov x (List.mem_cons_of_mem a hx))]
    simp [Nat.add_comm]

theorem count_filter_eq_ite {α : Type} [DecidableEq α] (f : α → Nat)
    (l : List α) (a : α) (i : Nat) :
    (l.filter (fun x => f x == i)).count a =
      if f a = i then l.count a else 0 := by
  by_cases h : f a = i
  · rw [if_pos h]
    exact List.count_filter (by simp [h])
  · rw [if_neg h]
    rw [List.count_eq_zero]
    intro hmem
    exact h (by simpa using (List.mem_filter.mp hmem).2)

/-! ### Positional helpers -/

theorem find?_reverse_eq_of_last {α : Type} (p : α → Bool) :
    ∀ (l : List α) (i : Nat) (hi : i < l.length),
      p (l.get ⟨i, hi⟩) = true →
      (∀ (j : Nat) (hj : j < l.length), i < j → p (l.get ⟨j, hj⟩) = false) →
      l.reverse.find? p = some (l.get ⟨i, hi⟩) := by
  intro l
  induction l with
  | nil => intro i hi; simp at hi
  | cons a t ih =>
    intro i hi hp hlater
    rw [List.reverse_cons, List.find?_append]
    cases i with
    | zero =>
      have hnone : t.reverse.find? p = none := by
        rw [List.find?_eq_none]
        intro x hx
        rcases List.mem_iff_get.mp (List.mem_reverse.mp hx) with ⟨⟨m, hm⟩, rfl⟩
        have hfalse := hlater (m + 1) (Nat.succ_lt_succ hm) (Nat.succ_pos m)
        simp only [List.get_eq_getElem, List.getElem_cons_succ] at hfalse ⊢
        simp [hfalse]
      rw [hnone, Option.none_or]
      simp only [List.find?_cons]
      have hpa : p a = true := by simpa using hp
      rw [hpa]
      rfl
    | succ k =>
      have hk : k < t.length := Nat.lt_of_succ_lt_succ hi
      have hp' : p (t.get ⟨k, hk⟩) = true := by
        simp only [List.get_eq_getElem] at hp ⊢
        simpa [List.getElem_cons_succ] using hp
      have hlater' : ∀ (j : Nat) (hj : j < t.length), k < j →
          p (t.get ⟨j, hj⟩) = false := by
        intro j hj hkj
        have hf := hlater (j + 1) (Nat.succ_lt_succ hj) (Nat.succ_lt_succ hkj)
        simp only [List.get_eq_getElem, List.getElem_cons_succ] at hf ⊢
        exact hf
      rw [ih k hk hp' hlater', Option.or_some]
      simp [List.get_eq_getElem, List.getElem_cons_succ]

theorem get_middle_mem_right {α : Type} :
    ∀ (l1 : List α) (e : α) (l2 : List α) (j : Nat)
      (hj : j < (l1 ++ e :: l2).length), l1.length < j →
      (l1 ++ e :: l2).get ⟨j, hj⟩ ∈ l2 := by
  intro l1
  induction l1 with
  | nil =>
    intro e l2 j hj hgt
    cases j with
    | zero => simp at hgt
    | succ m =>
      simp only [List.nil_append, List.get_eq_getElem, List.getElem_cons_succ]
      exact List.getElem_mem _
  | cons a l1 ih =>
    intro e l2 j hj hgt
    cases j with
    | zero => simp at hgt
    | succ m =>
      have hm : m < (l1 ++ e :: l2).length := by
        simp only [List.cons_append, List.length_cons] at hj
        omega
      have hih := ih e l2 m hm (by simp only [List.length_cons] at hgt; omega)
      simp only [List.get_eq_getElem, List.cons_append, List.getElem_cons_succ] at hih ⊢
      exact hih

theorem get_at_junction {α : Type} (l1 : List α) (e : α) (l2 : List α)
    (hj : l1.length < (l1 ++ e :: l2).length) :
    (l1 ++ e :: l2).get ⟨l1.length, hj⟩ = e := by
  induction l1 with
  | nil => rfl
  | cons a l1 ih =>
    have hj' : l1.length < (l1 ++ e :: l2).length := by
      simp only [List.length_append, List.length_cons]
      omega
    have hih := ih hj'
    simp only [List.get_eq_getElem, List.cons_append, List.length_cons,
      List.getElem_cons_succ] at hih ⊢
    exact hih

/-! ### Claim theorems -/

/-- C6: for every selected model list of N names, `generate_model_dict`
enumerates the list in input order starting from 1, so its identifiers
are unique and form the contiguous range [1..N], and its names are the
selected list itself in order. -/
theorem model_dict_contiguous (selected_models : List String) :
    (generate_model_dict selected_models).map Prod.fst =
        List.range' 1 selected_models.length
    ∧ ((generate_model_dict selected_models).map Prod.fst).Nodup
    ∧ (generate_model_dict selected_models).map Prod.snd = selected_models :=
  ⟨gm_fst selected_models,
   by rw [gm_fst]; exact List.nodup_range' 1 selected_models.length,
   gm_snd selected_models⟩

/-- C4: `combine_backtest_forecast` returns the backtest-derived table
followed by the full-series-derived table in that order, preserves each
row's model_id, and drops or deduplicates nothing: every row's
multiplicity in the result is the sum of its multiplicities in the two
Forecast Client results, so overlapping dates survive as-is. -/
theorem combine_concat_order (client : ForecastClient)
    (full back : List Observation) (h : Nat) (tv : String)
    (models : List String) :
    combine_backtest_forecast client full back h tv models =
        client back h tv models ++ client full h tv models
    ∧ (∀ r : ForecastRow,
        (combine_backtest_forecast client full back h tv models).count r =
          (client back h tv models).count r + (client full h tv models).count r)
    ∧ (combine_backtest_forecast client full back h tv models).map ForecastRow.model_id =
        (client back h tv models).map ForecastRow.model_id ++
          (client full h tv models).map ForecastRow.model_id := by
  refine ⟨rfl, ?_, ?_⟩
  · intro r
    exact List.count_append r _ _
  · exact List.map_append ForecastRow.model_id _ _

/-- C8: invoking the Generate Forecast action with an empty model
selection reports the EmptyModelList error message, and the outcome does
not depend on the Forecast Client at all, so the action aborts before
any remote forecast call is made. -/
theorem empty_model_list_aborts (client : ForecastClient)
    (data : List Observation) (v : String) (h : Nat)
    (sel : List String) (hsel : sel = []) :
    generate_forecast_handler client data v h sel =
      Except.error "Please select at least one forecasting model before proceeding."
    ∧ ∀ client2 : ForecastClient,
        generate_forecast_handler client data v h sel =
          generate_forecast_handler client2 data v h sel := by
  subst hsel
  exact ⟨rfl, fun _ => rfl⟩

/-- Witness for `empty_model_list_aborts` at a concrete input. -/
theorem empty_model_list_aborts_witness :
    generate_forecast_handler clientStub hist3 "pce" 12 [] =
      Except.error "Please select at least one forecasting model before proceeding." :=
  (empty_model_list_aborts clientStub hist3 "pce" 12 [] rfl).1

/-- C3: the rescaling step computes value = value01 * (max - min) + min
row-wise for every row of the normalized combined series, attaching the
result as a new column with all other fields preserved; the pipeline
applies it with the observed min and max of the variable's full
filtered history; and in the degenerate case max = min every rescaled
value equals min. -/
theorem rescale_rowwise (df : List ForecastRow) (min_value max_value : Rat) :
    (rescale_normalized df min_value max_value).map
        (fun r => (r.date, r.value01, r.model_id)) =
      df.map (fun r => (r.date, r.value, r.model_id))
    ∧ (∀ r ∈ rescale_normalized df min_value max_value,
        r.value = r.value01 * (max_value - min_value) + min_value)
    ∧ (max_value = min_value →
        ∀ r ∈ rescale_normalized df min_value max_value, r.value = min_value)
    ∧ (∀ (client : ForecastClient) (data : List Observation)
        (v : String) (h : Nat) (sel : List String),
        (run_pipeline client data v h sel).forecast_normalized_df =
          rescale_normalized
            (combine_backtest_forecast client (filtered_data data v)
              (backtest_data (filtered_data data v) h) h "value01" sel)
            (listMin ((filtered_data data v).map Observation.value))
            (listMax ((filtered_data data v).map Observation.value))) := by
  refine ⟨?_, ?_, ?_, ?_⟩
  · simp [rescale_normalized, List.map_map]
  · intro r hr
    rcases List.mem_map.mp hr with ⟨s, _, rfl⟩
    rfl
  · intro hmm r hr
    rcases List.mem_map.mp hr with ⟨s, _, rfl⟩
    simp [hmm]
  · intro client data v h sel
    rfl

/-- Witness for `rescale_rowwise`: the degenerate max = min case at a
concrete input. -/
theorem rescale_rowwise_witness :
    (⟨0, 0, 3, 1⟩ : RescaledRow).value = 3 :=
  (rescale_rowwise [⟨0, 0, 1⟩] 3 3).2.2.1 rfl ⟨0, 0, 3, 1⟩
    (by simp [rescale_normalized])

/-- C9: the chart display window computed at src/app.py line 94 starts
at the date of the 20th-from-last historical observation of the
selected variable and ends at the date of the last row of the combined
forecast table. -/
theorem zoom_range_window (filtered : List Observation)
    (fdf : List ForecastRow) (h20 : 20 ≤ filtered.length) (hne : fdf ≠ []) :
    zoom_range filtered fdf =
      (some ((filtered.get ⟨filtered.length - 20, by omega⟩).date),
       some ((fdf.getLast hne).date)) := by
  have hpos : 0 < fdf.length := List.length_pos.mpr hne
  have h1 : ilocNeg (filtered.map Observation.date) 20 =
      some ((filtered.get ⟨filtered.length - 20, by omega⟩).date) := by
    unfold ilocNeg
    rw [if_pos (by simp only [List.length_map]; omega)]
    have hx : (filtered.map Observation.date).length - 20 <
        (filtered.map Observation.date).length := by
      simp only [List.length_map]; omega
    rw [List.get?_eq_get hx]
    congr 1
    simp [List.get_eq_getElem, List.getElem_map, List.length_map]
  have h2 : ilocNeg (fdf.map ForecastRow.date) 1 =
      some ((fdf.getLast hne).date) := by
    unfold ilocNeg
    rw [if_pos (by simp only [List.length_map]; omega)]
    have hx : (fdf.map ForecastRow.date).length - 1 <
        (fdf.map ForecastRow.date).length := by
      simp only [List.length_map]; omega
    rw [List.get?_eq_get hx]
    congr 1
    rw [List.getLast_eq_getElem]
    simp [List.get_eq_getElem, List.getElem_map, List.length_map]
  rw [zoom_range, h1, h2]

/-- Witness for `zoom_range_window` at a concrete input: a 20-point
history whose 20th-from-last date is 0 and a one-row forecast table
ending at date 99. -/
theorem zoom_range_window_witness :
    zoom_range hist20 [⟨99, 0, 1⟩] = (some 0, some 99) := by
  rw [zoom_range_window hist20 [⟨99, 0, 1⟩] (by decide) (by decide)]
  rfl

theorem sum_map_constant {α : Type} (l : List α) (c : Nat) :
    (l.map (fun _ => c)).sum = l.length * c := by
  induction l with
  | nil => simp
  | cons a l ih => simp [ih]; ring

/-- C1: for a full series of length L, horizon H with 0 < H < L, and a
non-empty list of M distinct model names, if each Forecast Client call
returns exactly H rows per model (rows tagged with identifiers 1..M),
then `combine_backtest_forecast` returns exactly 2 * H * M rows. -/
theorem combiner_row_count (client : ForecastClient)
    (full back : List Observation) (H L : Nat) (tv : String)
    (models : List String)
    (hL : full.length = L) (hH0 : 0 < H) (hHL : H < L)
    (hne : models ≠ []) (hnd : models.Nodup)
    (hclient : ∀ actuals : List Observation,
      (∀ i ∈ List.range' 1 models.length,
        ((client actuals H tv models).filter (fun r => r.model_id == i)).length = H)
      ∧ ∀ r ∈ client actuals H tv models,
          r.model_id ∈ List.range' 1 models.length) :
    (combine_backtest_forecast client full back H tv models).length =
      2 * H * models.length := by
  have hcall : ∀ actuals : List Observation,
      (client actuals H tv models).length = models.length * H := by
    intro actuals
    have hnd' : (List.range' 1 models.length).Nodup :=
      List.nodup_range' 1 models.length
    have hsum := length_filter_cover (fun r : ForecastRow => r.model_id)
      (client actuals H tv models) (List.range' 1 models.length) hnd'
      (fun a ha => (hclient actuals).2 a ha)
    rw [← hsum]
    have hmap : (List.range' 1 models.length).map
        (fun i => ((client actuals H tv models).filter
          (fun r => r.model_id == i)).length) =
        (List.range' 1 models.length).map (fun _ => H) :=
      List.map_congr_left (fun i hi => (hclient actuals).1 i hi)
    rw [hmap, sum_map_constant, List.length_range']
  show (client back H tv models ++ client full H tv models).length =
    2 * H * models.length
  rw [List.length_append, hcall, hcall]
  ring

/-- Witness for `combiner_row_count` at a concrete input: two history
points, horizon 1, one model, and the well-behaved client stub. -/
theorem combiner_row_count_witness :
    (combine_backtest_forecast clientStub
        [⟨"pop", 0, 1, 0⟩, ⟨"pop", 1, 2, 1⟩] [⟨"pop", 0, 1, 0⟩]
        1 "value" ["xgboost"]).length = 2 * 1 * 1 :=
  combiner_row_count clientStub
    [⟨"pop", 0, 1, 0⟩, ⟨"pop", 1, 2, 1⟩] [⟨"pop", 0, 1, 0⟩] 1 2 "value"
    ["xgboost"] rfl (by decide) (by decide) (by decide) (by decide)
    (fun actuals => by simp only [clientStub]; exact ⟨by decide, by decide⟩)

/-- C2: with the model assignment's names distinct (so each name has a
well-defined identifier), `split_forecasts_by_model` returns a mapping
whose keys are exactly the assignment's model names in order; the
subtable under each name is the filtered subsequence of rows carrying
that name's identifier, in original input order (a sublist of the
input), and a model with zero matching rows is present with an empty
subtable rather than absent or an error. -/
theorem splitter_partition (forecast_df : List ForecastRow)
    (model_dict : List (Nat × String))
    (hnd : (model_dict.map Prod.snd).Nodup) :
    (split_forecasts_by_model ForecastRow.model_id forecast_df model_dict).map
        Prod.fst = model_dict.map Prod.snd
    ∧ (∀ p ∈ model_dict,
        lookupD (split_forecasts_by_model ForecastRow.model_id forecast_df
            model_dict) p.2 =
          some (forecast_df.filter (fun r => r.model_id == p.1)))
    ∧ (∀ p ∈ model_dict,
        (forecast_df.filter (fun r => r.model_id == p.1)).Sublist forecast_df) := by
  refine ⟨?_, ?_, ?_⟩
  · rw [split_eq_map_of_nodup _ _ _ hnd, List.map_map]
    rfl
  · intro p hp
    rw [split_eq_map_of_nodup _ _ _ hnd]
    exact lookupD_map_of_nodup Prod.snd
      (fun q => forecast_df.filter (fun r => r.model_id == q.1))
      model_dict p hnd hp
  · intro p _
    exact List.filter_sublist _

/-- Witness for `splitter_partition` at a concrete input: the "arima"
model matches zero rows and still gets a key with an empty subtable. -/
theorem splitter_partition_witness :
    lookupD (split_forecasts_by_model ForecastRow.model_id [⟨0, 0, 1⟩]
        [(1, "xgboost"), (2, "arima")]) "arima" = some [] :=
  (splitter_partition [⟨0, 0, 1⟩] [(1, "xgboost"), (2, "arima")]
    (by decide)).2.1 (2, "arima") (by decide)

/-- C5 (divergence): with a 3-point history and horizon 5, the Python
slice `iloc[:-5]` yields an empty backtest series, and the Combiner does
not fail with any InsufficientHistory error: `combine_backtest_forecast`
proceeds, calling the Forecast Client on the empty slice and returning
the concatenation of the two calls (here 2 * 5 * 1 = 10 rows). -/
theorem insufficient_history_unchecked :
    backtest_data hist3 5 = []
    ∧ combine_backtest_forecast clientStub hist3 (backtest_data hist3 5)
        5 "value" ["xgboost"] =
      clientStub [] 5 "value" ["xgboost"] ++
        clientStub hist3 5 "value" ["xgboost"]
    ∧ (combine_backtest_forecast clientStub hist3 (backtest_data hist3 5)
        5 "value" ["xgboost"]).length = 10 := by
  refine ⟨?_, ?_, ?_⟩
  · rfl
  · rfl
  · decide

/-- C7 counterexample: a forecast table may carry a model identifier
outside the assignment (here model_id 2 against the single-model
assignment); `split_forecasts_by_model` then silently drops the row, so
the union of the subtables does not reconstruct the original table. -/
theorem splitter_reconstruction_cex :
    ¬ (((split_forecasts_by_model ForecastRow.model_id
          [⟨0, 0, 2⟩] (generate_model_dict ["xgboost"])).map
            Prod.snd).flatten.Perm [⟨0, 0, 2⟩]) := by
  decide

/-- C7 amended: when the assignment's identifiers are distinct, its
names are distinct, and every row's model_id occurs among the
identifiers, the union of all subtables of `split_forecasts_by_model`
is a permutation of the original forecast table: the same multiset of
rows, none lost and none duplicated across keys. -/
theorem splitter_reconstruction_amended (df : List ForecastRow)
    (d : List (Nat × String))
    (hfst : (d.map Prod.fst).Nodup) (hsnd : (d.map Prod.snd).Nodup)
    (hcov : ∀ r ∈ df, r.model_id ∈ d.map Prod.fst) :
    (((split_forecasts_by_model ForecastRow.model_id df d).map
        Prod.snd).flatten).Perm df := by
  rw [split_eq_map_of_nodup _ _ _ hsnd, List.map_map]
  have hcomp : (Prod.snd ∘ fun p : Nat × String =>
      (p.2, df.filter (fun r => r.model_id == p.1))) =
      fun p : Nat × String => df.filter (fun r => r.model_id == p.1) := rfl
  rw [hcomp, List.perm_iff_count]
  intro a
  rw [List.count_flatten, List.map_map]
  have hcomp2 : (List.count a ∘ fun p : Nat × String =>
      df.filter (fun r => r.model_id == p.1)) =
      fun p : Nat × String => if a.model_id = p.1 then df.count a else 0 := by
    funext p
    exact count_filter_eq_ite ForecastRow.model_id df a p.1
  rw [hcomp2]
  have hcomp3 : (fun p : Nat × String =>
      if a.model_id = p.1 then df.count a else 0) =
      ((fun i => if a.model_id = i then df.count a else 0) ∘ Prod.fst) := rfl
  rw [hcomp3, ← List.map_map]
  by_cases hmem : a ∈ df
  · exact sum_map_ite_mem (d.map Prod.fst) a.model_id hfst (hcov a hmem)
  · have hzero : df.count a = 0 := List.count_eq_zero.mpr hmem
    rw [hzero]
    have hmap0 : List.map (fun i : Nat => if a.model_id = i then (0 : Nat) else 0)
        (d.map Prod.fst) = (d.map Prod.fst).map (fun _ => 0) :=
      List.map_congr_left (fun i _ => by simp)
    rw [hmap0, sum_map_constant, Nat.mul_zero]

/-- Witness for `splitter_reconstruction_amended` at a concrete input. -/
theorem splitter_reconstruction_amended_witness :
    (((split_forecasts_by_model ForecastRow.model_id
        [⟨0, 0, 1⟩] (generate_model_dict ["xgboost"])).map
          Prod.snd).flatten).Perm [⟨0, 0, 1⟩] :=
  splitter_reconstruction_amended [⟨0, 0, 1⟩] (generate_model_dict ["xgboost"])
    (by decide) (by decide) (by decide)

theorem get_congr_index {α : Type} (l : List α) (m n : Nat) (hm : m < l.length)
    (hn : n < l.length) (h : m = n) : l.get ⟨m, hm⟩ = l.get ⟨n, hn⟩ := by
  subst h; rfl

theorem get_of_append_decomp {α : Type} (d l1 l2 : List α) (e : α)
    (hd : d = l1 ++ e :: l2) (hL : l1.length < d.length) :
    d.get ⟨l1.length, hL⟩ = e := by
  subst hd; exact get_at_junction l1 e l2 hL

theorem get_of_append_decomp_right {α : Type} (d l1 l2 : List α) (e : α)
    (hd : d = l1 ++ e :: l2) (j : Nat) (hj : j < d.length)
    (hgt : l1.length < j) : d.get ⟨j, hj⟩ ∈ l2 := by
  subst hd; exact get_middle_mem_right l1 e l2 j hj hgt

/-- C10: if the selected model list contains duplicate names, the split
output has fewer keys than the assignment has identifiers; the key of a
name is bound to the subtable filtered by the LAST identifier assigned
to that name; and a row tagged with an earlier identifier of a
duplicated name is absent from every subtable. -/
theorem split_duplicate_names_collapse (df : List ForecastRow)
    (sel : List String) (hdup : ¬ sel.Nodup) :
    ((split_forecasts_by_model ForecastRow.model_id df
        (generate_model_dict sel)).map Prod.fst).length
      < (generate_model_dict sel).length
    ∧ (∀ (i : Nat) (hi : i < sel.length),
        (∀ (j : Nat) (hj : j < sel.length), i < j →
          sel.get ⟨j, hj⟩ ≠ sel.get ⟨i, hi⟩) →
        lookupD (split_forecasts_by_model ForecastRow.model_id df
            (generate_model_dict sel)) (sel.get ⟨i, hi⟩) =
          some (df.filter (fun r => r.model_id == i + 1)))
    ∧ (∀ (i : Nat) (hi : i < sel.length) (j : Nat) (hj : j < sel.length),
        i < j → sel.get ⟨i, hi⟩ = sel.get ⟨j, hj⟩ →
        ∀ r ∈ df, r.model_id = i + 1 →
          ∀ q ∈ split_forecasts_by_model ForecastRow.model_id df
              (generate_model_dict sel), r ∉ q.2) := by
  refine ⟨?_, ?_, ?_⟩
  · have hkeysnd := split_keysNodup ForecastRow.model_id df (generate_model_dict sel)
    have hlen : ((split_forecasts_by_model ForecastRow.model_id df
        (generate_model_dict sel)).map Prod.fst).length =
        ((split_forecasts_by_model ForecastRow.model_id df
          (generate_model_dict sel)).map Prod.fst).toFinset.card :=
      (List.toFinset_card_of_nodup hkeysnd).symm
    have hsetEq : ((split_forecasts_by_model ForecastRow.model_id df
        (generate_model_dict sel)).map Prod.fst).toFinset = sel.toFinset := by
      ext x
      simp only [List.mem_toFinset]
      rw [split_keyMem]
      rw [gm_snd]
    rw [hlen, hsetEq, List.card_toFinset, gm_length]
    have hsub := List.dedup_sublist sel
    have hle := hsub.length_le
    rcases Nat.lt_or_ge sel.dedup.length sel.length with hlt | hge
    · exact hlt
    · exfalso
      have heq : sel.dedup = sel := hsub.eq_of_length (Nat.le_antisymm hle hge)
      exact hdup (heq ▸ List.nodup_dedup sel)
  · intro i hi hlast
    rw [split_lookup]
    have hd2 : i < (generate_model_dict sel).length := by
      rw [gm_length]; exact hi
    have hfind : (generate_model_dict sel).reverse.find?
        (fun p => p.2 == sel.get ⟨i, hi⟩) =
        some ((generate_model_dict sel).get ⟨i, hd2⟩) := by
      apply find?_reverse_eq_of_last
      · rw [gm_get sel i hi hd2]
        simp
      · intro j hj hij
        have hj' : j < sel.length := by rw [gm_length] at hj; exact hj
        rw [gm_get sel j hj' hj]
        exact beq_eq_false_iff_ne.mpr (hlast j hj' hij)
    rw [hfind, gm_get sel i hi hd2]
    rfl
  · intro i hi j hj hij hnames r hr hrid q hq hrq
    rcases split_mem_struct ForecastRow.model_id df (generate_model_dict sel)
      q hq with ⟨l1, p, l2, hd, hlast2, hqe⟩
    have hfilter : r ∈ df.filter (fun x => x.model_id == p.1) := by
      rw [hqe] at hrq
      exact hrq
    have hpid : r.model_id = p.1 := by
      have hb := (List.mem_filter.mp hfilter).2
      simpa using hb
    have hL : l1.length < (generate_model_dict sel).length := by
      rw [hd]
      simp only [List.length_append, List.length_cons]
      omega
    have hjun := get_of_append_decomp _ l1 l2 p hd hL
    have hlsel : l1.length < sel.length := by
      have hl := hL
      rw [gm_length] at hl
      exact hl
    rw [gm_get sel l1.length hlsel hL] at hjun
    have hfst : l1.length + 1 = p.1 := by rw [← hjun]
    have hLi : l1.length = i := by omega
    have hjd : j < (generate_model_dict sel).length := by
      rw [gm_length]; exact hj
    have hj2 := get_of_append_decomp_right _ l1 l2 p hd j hjd (by omega)
    rw [gm_get sel j hj hjd] at hj2
    have hne2 := hlast2 _ hj2
    apply hne2
    show sel.get ⟨j, hj⟩ = p.2
    have hp2 : p.2 = sel.get ⟨l1.length, hlsel⟩ := by rw [← hjun]
    rw [hp2]
    exact hnames.symm.trans (get_congr_index sel i l1.length hi hlsel hLi.symm)

/-- Witness for `split_duplicate_names_collapse` at a concrete input:
two copies of "xgboost" produce one key against two identifiers. -/
theorem split_duplicate_names_collapse_witness :
    ((split_forecasts_by_model ForecastRow.model_id [⟨0, 0, 1⟩]
        (generate_model_dict ["xgboost", "xgboost"])).map Prod.fst).length
      < (generate_model_dict ["xgboost", "xgboost"]).length :=
  (split_duplicate_names_collapse [⟨0, 0, 1⟩] ["xgboost", "xgboost"]
    (by decide)).1
